import Mathlib

/-!
Verification of the chess rules engine of this repository.

The engine lives in two source files:
  * src/chess-check-detection.tsx — raw move generation (getRawPieceMoves),
    the attack oracle (isPositionUnderAttack), king lookup (findKing),
    check simulation (simulateMove, wouldBeInCheck), the legal move filter
    (getLegalMoves) and the check/checkmate detectors (isInCheck, isInCheckmate);
  * src/App.tsx — the move executor (makeMove), undo (handleUndo) and
    promotion resolution (handlePromotion).

Embedding conventions:
  * positions are pairs of integers (row, col), exactly the numeric pair the
    source round-trips through its template-string keys;
  * a board is a list of rows of optional pieces; board access out of range
    yields none (the source either guards indices or reads undefined there);
  * the optional TypeScript field hasMoved becomes an Option Bool, with
    JavaScript truthiness captured by the helper truthy below;
  * functions that can throw (findKing and everything that calls it) return
    an Option, none standing for the propagated KingNotFound exception.
-/

namespace Chess

inductive Color
  | w
  | b
deriving DecidableEq, Repr

inductive PieceType
  | p
  | n
  | b
  | r
  | q
  | k
deriving DecidableEq, Repr

structure Piece where
  type : PieceType
  color : Color
  hasMoved : Option Bool
deriving DecidableEq, Repr

abbrev Pos := Int × Int

abbrev Board := List (List (Option Piece))

/-- `piece.color === 'w' ? 'b' : 'w'` -/
def oppColor : Color → Color
  | Color.w => Color.b
  | Color.b => Color.w

/-- JavaScript truthiness of the optional `hasMoved` field:
`undefined` and `false` are falsy. -/
def truthy (o : Option Bool) : Bool := o.getD false

/-- Nat-indexed core of board access: `grid[r][c]`. -/
def gridGet {α : Type} (g : List (List (Option α))) (r c : Nat) : Option α :=
  (g[r]?.bind (fun row => row[c]?)).join

/-- Nat-indexed core of board update: `grid[r][c] = v` on the copied rows. -/
def gridSet {α : Type} (g : List (List (Option α))) (r c : Nat) (v : Option α) :
    List (List (Option α)) :=
  match g[r]? with
  | some row => g.set r (row.set c v)
  | none => g

/-- `board[r][c]`, total: out-of-range access yields `none`. -/
def cell (bd : Board) (r c : Int) : Option Piece :=
  if 0 ≤ r ∧ 0 ≤ c then gridGet bd r.toNat c.toNat else none

/-- `board[r][c] = v` on a copied board (no-op out of range, as no in-range
write path of the source ever goes out of range). -/
def setCell (bd : Board) (r c : Int) (v : Option Piece) : Board :=
  if 0 ≤ r ∧ 0 ≤ c then gridSet bd r.toNat c.toNat v else bd

/-- The range test `r >= 0 && r < 8 && c >= 0 && c < 8`. -/
def inRange (r c : Int) : Bool :=
  decide (0 ≤ r) && decide (r < 8) && decide (0 ≤ c) && decide (c < 8)

/-- A fully populated 8×8 board (§3 of the spec: no row may be shorter
than 8). -/
def boardWF (bd : Board) : Prop :=
  bd.length = 8 ∧ ∀ row ∈ bd, row.length = 8

instance : DecidablePred boardWF := fun bd => by
  unfold boardWF; infer_instance

/-- The `addMove` helper of `getRawPieceMoves`: keep `(r, c)` when it is in
range and not occupied by a piece of the mover's own color. -/
def addMove (bd : Board) (piece : Piece) (r c : Int) : List Pos :=
  if inRange r c then
    match cell bd r c with
    | none => [(r, c)]
    | some t => if t.color ≠ piece.color then [(r, c)] else []
  else []

/-- Pawn travel direction: `piece.color === "w" ? -1 : 1`. -/
def pawnDir (c : Color) : Int := if c = Color.w then -1 else 1

/-- Pawn starting rank: `piece.color === "w" ? 6 : 1`. -/
def pawnStartRow (c : Color) : Int := if c = Color.w then 6 else 1

/-- `board[lastToRow][lastToCol]?.type === 'p'` -/
def isPawnAt (bd : Board) (r c : Int) : Bool :=
  match cell bd r c with
  | some piece => decide (piece.type = PieceType.p)
  | none => false

/-- The forward part of the pawn case of `getRawPieceMoves`: one square ahead
onto an empty square, plus the initial two-square advance from the starting
rank when both squares are empty. -/
def pawnForward (bd : Board) (piece : Piece) (row col : Int) : List Pos :=
  if cell bd (row + pawnDir piece.color) col = none then
    addMove bd piece (row + pawnDir piece.color) col ++
      (if row = pawnStartRow piece.color ∧
          cell bd (row + pawnDir piece.color * 2) col = none then
        addMove bd piece (row + pawnDir piece.color * 2) col
      else [])
  else []

/-- One iteration of the pawn capture loop of `getRawPieceMoves` for a column
offset: the regular diagonal capture and the en-passant branch driven by
`lastMove`. -/
def pawnCapture (bd : Board) (piece : Piece) (row col : Int)
    (lastMove : Option (Pos × Pos)) (offset : Int) : List Pos :=
  if 0 ≤ row + pawnDir piece.color ∧ row + pawnDir piece.color < 8 ∧
      0 ≤ col + offset ∧ col + offset < 8 then
    (match cell bd (row + pawnDir piece.color) (col + offset) with
      | some t =>
        if t.color ≠ piece.color then
          addMove bd piece (row + pawnDir piece.color) (col + offset)
        else []
      | none => []) ++
    (match lastMove with
      | some lm =>
        if isPawnAt bd lm.2.1 lm.2.2 ∧ (lm.1.1 - lm.2.1).natAbs = 2 ∧
            lm.2.2 = col + offset ∧ lm.2.1 = row then
          addMove bd piece (row + pawnDir piece.color) (col + offset)
        else []
      | none => [])
  else []

/-- The pawn case of `getRawPieceMoves`: forward moves, then the capture loop
over the two column offsets. -/
def pawnMoves (bd : Board) (piece : Piece) (row col : Int)
    (lastMove : Option (Pos × Pos)) : List Pos :=
  pawnForward bd piece row col ++
    [(-1 : Int), 1].flatMap (pawnCapture bd piece row col lastMove)

def knightOffsets : List (Int × Int) :=
  [(-2, -1), (-2, 1), (-1, -2), (-1, 2), (1, -2), (1, 2), (2, -1), (2, 1)]

def kingOffsets : List (Int × Int) :=
  [(-1, -1), (-1, 0), (-1, 1), (0, -1), (0, 1), (1, -1), (1, 0), (1, 1)]

/-- Ray directions for rook / bishop / queen sliding. -/
def slideDirections : PieceType → List (Int × Int)
  | PieceType.r => [(0, 1), (0, -1), (1, 0), (-1, 0)]
  | PieceType.b => [(1, 1), (1, -1), (-1, 1), (-1, -1)]
  | _ => [(0, 1), (0, -1), (1, 0), (-1, 0), (1, 1), (1, -1), (-1, 1), (-1, -1)]

/-- The sliding `while` loop: walk a ray until the board edge, stopping at the
first occupied square (included only when it holds an enemy piece).  The fuel
argument bounds the at most eight in-range steps of the source loop. -/
def slide (bd : Board) (piece : Piece) (dr dc : Int) :
    Nat → Int → Int → List Pos
  | 0, _, _ => []
  | fuel + 1, r, c =>
    if inRange r c then
      match cell bd r c with
      | none => addMove bd piece r c ++ slide bd piece dr dc fuel (r + dr) (c + dc)
      | some t => if t.color ≠ piece.color then addMove bd piece r c else []
    else []

/-- `board[row][col]?.type === 'r' && same color && !hasMoved` for the castling
rook at `(row, col)`. -/
def rookReady (bd : Board) (piece : Piece) (row col : Int) : Bool :=
  match cell bd row col with
  | some rk =>
    decide (rk.type = PieceType.r) && decide (rk.color = piece.color) && !(truthy rk.hasMoved)
  | none => false

/-- Kingside castling precondition of the raw generator: unmoved same-color
rook on file 7 and empty squares on files 5 and 6. -/
def ksCastleCond (bd : Board) (piece : Piece) (row : Int) : Bool :=
  rookReady bd piece row 7 && decide (cell bd row 5 = none) &&
    decide (cell bd row 6 = none)

/-- Queenside castling precondition of the raw generator: unmoved same-color
rook on file 0 and empty squares on files 1, 2 and 3. -/
def qsCastleCond (bd : Board) (piece : Piece) (row : Int) : Bool :=
  rookReady bd piece row 0 && decide (cell bd row 1 = none) &&
    decide (cell bd row 2 = none) && decide (cell bd row 3 = none)

/-- The knight case of `getRawPieceMoves`: the eight fixed offsets. -/
def knightMovesRaw (bd : Board) (piece : Piece) (row col : Int) : List Pos :=
  knightOffsets.flatMap (fun d => addMove bd piece (row + d.1) (col + d.2))

/-- The bishop / rook / queen case of `getRawPieceMoves`: walk every ray of
the direction set chosen by the piece type. -/
def slideMovesRaw (bd : Board) (piece : Piece) (row col : Int) (ty : PieceType) : List Pos :=
  (slideDirections ty).flatMap (fun d => slide bd piece d.1 d.2 8 (row + d.1) (col + d.2))

/-- The king case of `getRawPieceMoves`: the eight adjacent squares plus the
two castling destinations pushed when the king is unmoved and the
corresponding rook condition holds. -/
def kingMovesRaw (bd : Board) (piece : Piece) (row col : Int) : List Pos :=
  let regular := kingOffsets.flatMap (fun d => addMove bd piece (row + d.1) (col + d.2))
  if truthy piece.hasMoved = false then
    regular ++ (if ksCastleCond bd piece row then [(row, 6)] else []) ++
      (if qsCastleCond bd piece row then [(row, 2)] else [])
  else regular

/-- `getRawPieceMoves`: every geometrically legal destination for a piece,
ignoring check. -/
def getRawPieceMoves (pos : Pos) (piece : Piece) (bd : Board)
    (lastMove : Option (Pos × Pos)) : List Pos :=
  let row := pos.1
  let col := pos.2
  match piece.type with
  | PieceType.p => pawnMoves bd piece row col lastMove
  | PieceType.n => knightMovesRaw bd piece row col
  | PieceType.b => slideMovesRaw bd piece row col PieceType.b
  | PieceType.r => slideMovesRaw bd piece row col PieceType.r
  | PieceType.q => slideMovesRaw bd piece row col PieceType.q
  | PieceType.k => kingMovesRaw bd piece row col

/-- The row-major 0..7 × 0..7 scan order shared by every full-board loop of
the source. -/
def allSquares : List Pos :=
  (List.range 8).flatMap (fun r => (List.range 8).map (fun c => ((r : Int), (c : Int))))

/-- The attack oracle `isPositionUnderAttack`: some piece of `attackingColor`
has a raw move onto `pos`. -/
def isPositionUnderAttack (pos : Pos) (attackingColor : Color) (bd : Board) : Bool :=
  allSquares.any (fun sq =>
    match cell bd sq.1 sq.2 with
    | some piece =>
      if piece.color = attackingColor then
        decide (pos ∈ getRawPieceMoves sq piece bd none)
      else false
    | none => false)

/-- `findKing`: first square (row-major) holding a king of the given color;
`none` models the thrown king-not-found error. -/
def findKing (bd : Board) (color : Color) : Option Pos :=
  allSquares.find? (fun sq =>
    match cell bd sq.1 sq.2 with
    | some piece => decide (piece.type = PieceType.k) && decide (piece.color = color)
    | none => false)

/-- `simulateMove`: relocate the single given piece on a copy of the board. -/
def simulateMove (bd : Board) (fromPos toPos : Pos) (piece : Piece) : Board :=
  setCell (setCell bd fromPos.1 fromPos.2 none) toPos.1 toPos.2 (some piece)

/-- The scan at the end of `wouldBeInCheck`: does any piece whose color
differs from `movingColor` have a raw move onto `kingPos`? -/
def attackLoop (bd : Board) (movingColor : Color) (kingPos : Pos) : Bool :=
  allSquares.any (fun sq =>
    match cell bd sq.1 sq.2 with
    | some attackingPiece =>
      if attackingPiece.color ≠ movingColor then
        decide (kingPos ∈ getRawPieceMoves sq attackingPiece bd none)
      else false
    | none => false)

/-- `wouldBeInCheck`: simulate the relocation and ask whether any opposing
piece then attacks the mover's king; `none` models the propagated
king-not-found exception. -/
def wouldBeInCheck (bd : Board) (fromPos toPos : Pos) (movingColor : Color) :
    Option Bool :=
  match cell bd fromPos.1 fromPos.2 with
  | none => some false
  | some piece =>
    let simulatedBoard := simulateMove bd fromPos toPos piece
    match (if piece.type = PieceType.k then some toPos
           else findKing simulatedBoard movingColor) with
    | none => none
    | some kingPos => some (attackLoop simulatedBoard movingColor kingPos)

/-- `isInCheck`: locate the king and ask the attack oracle; `none` models the
thrown king-not-found error. -/
def isInCheck (bd : Board) (color : Color) : Option Bool :=
  (findKing bd color).map (fun kingPos => isPositionUnderAttack kingPos (oppColor color) bd)

/-- `Array.filter` with a predicate that may throw: the first `none`
(exception) aborts the whole filter. -/
def filterOpt {α : Type} (p : α → Option Bool) : List α → Option (List α)
  | [] => some []
  | a :: l => do
    let keep ← p a
    let rest ← filterOpt p l
    pure (if keep then a :: rest else rest)

/-- `getLegalMoves`: the raw moves minus everything that would leave the
mover's own king in check, with the extra castling conditions (not currently
in check, transit square not attacked) for kings. -/
def getLegalMoves (pos : Pos) (piece : Piece) (bd : Board)
    (lastMove : Option (Pos × Pos)) : Option (List Pos) :=
  let rawMoves := getRawPieceMoves pos piece bd lastMove
  if piece.type = PieceType.k then
    filterOpt (fun move => do
      if (move.2 - pos.2).natAbs = 2 then
        let chk ← isInCheck bd piece.color
        if chk then pure false
        else
          let direction : Int := if move.2 = 6 then 1 else -1
          let intermediateCol := pos.2 + direction
          if isPositionUnderAttack (pos.1, intermediateCol) (oppColor piece.color) bd then
            pure false
          else do
            let w ← wouldBeInCheck bd pos move piece.color
            pure (!w)
      else do
        let w ← wouldBeInCheck bd pos move piece.color
        pure (!w)) rawMoves
  else
    filterOpt (fun move => do
      let w ← wouldBeInCheck bd pos move piece.color
      pure (!w)) rawMoves

/-- The piece scan of `isInCheckmate`: walk the squares row-major and return
false at the first own-color piece with a legal move (`none` when a legal-move
query throws). -/
def checkmateScan (bd : Board) (color : Color) : List Pos → Option Bool
  | [] => some true
  | sq :: rest =>
    match cell bd sq.1 sq.2 with
    | some piece =>
      if piece.color = color then
        match getLegalMoves sq piece bd none with
        | none => none
        | some legalMoves =>
          if legalMoves.length > 0 then some false else checkmateScan bd color rest
      else checkmateScan bd color rest
    | none => checkmateScan bd color rest

/-- `isInCheckmate`: false when not in check, otherwise true exactly when the
exhaustive scan finds no own-color piece with a legal move. -/
def isInCheckmate (bd : Board) (color : Color) : Option Bool := do
  let chk ← isInCheck bd color
  if !chk then pure false
  else checkmateScan bd color allSquares

/-! ## Move executor (App.tsx) -/

/-- The move record appended to the history by `makeMove`:
`{ startPos, endPos, piece, capturedPiece }` with `piece` the pre-move
snapshot and `capturedPiece` the piece that sat on the destination. -/
structure MoveRecord where
  startPos : Pos
  endPos : Pos
  piece : Piece
  capturedPiece : Option Piece
deriving DecidableEq, Repr

/-- Outcome of `makeMove`: the early return on an empty origin, the
promotion-pending early return (which leaves the board state untouched),
or the committed new board together with its move record. -/
inductive MoveResult
  | noPiece
  | pending (fromPos toPos : Pos) (color : Color)
  | moved (newBoard : Board) (record : MoveRecord)
deriving DecidableEq, Repr

/-- The en-passant stage of `makeMove`: a pawn moving diagonally onto an
empty square removes the pawn one rank behind the destination. -/
def makeMoveEnPassant (bd : Board) (piece : Piece) (fromPos toPos : Pos)
    (targetPiece : Option Piece) : Board :=
  if piece.type = PieceType.p ∧ (fromPos.2 - toPos.2).natAbs = 1 ∧ targetPiece = none then
    setCell bd (toPos.1 - pawnDir piece.color) toPos.2 none
  else bd

/-- The castling stage of `makeMove`: a king moving two files relocates the
corresponding rook and marks the rook's `hasMoved`. -/
def makeMoveCastle (bd : Board) (piece : Piece) (fromPos toPos : Pos) : Board :=
  if piece.type = PieceType.k ∧ (toPos.2 - fromPos.2).natAbs = 2 then
    if toPos.2 = 6 then
      let b' := setCell bd fromPos.1 5 (cell bd fromPos.1 7)
      let b'' := setCell b' fromPos.1 7 none
      match cell b'' fromPos.1 5 with
      | some rk => setCell b'' fromPos.1 5 (some { rk with hasMoved := some true })
      | none => b''
    else if toPos.2 = 2 then
      let b' := setCell bd fromPos.1 3 (cell bd fromPos.1 0)
      let b'' := setCell b' fromPos.1 0 none
      match cell b'' fromPos.1 3 with
      | some rk => setCell b'' fromPos.1 3 (some { rk with hasMoved := some true })
      | none => b''
    else bd
  else bd

/-- `makeMove` of App.tsx as a function of the board value it reads and
writes: en-passant pawn removal, castling rook relocation, the promotion
early return, and the normal relocation that marks the mover `hasMoved`. -/
def makeMove (bd : Board) (fromPos toPos : Pos) : MoveResult :=
  match cell bd fromPos.1 fromPos.2 with
  | none => MoveResult.noPiece
  | some piece =>
    let targetPiece := cell bd toPos.1 toPos.2
    let b2 := makeMoveCastle (makeMoveEnPassant bd piece fromPos toPos targetPiece)
      piece fromPos toPos
    if piece.type = PieceType.p ∧ (toPos.1 = 0 ∨ toPos.1 = 7) then
      MoveResult.pending fromPos toPos piece.color
    else
      MoveResult.moved
        (setCell (setCell b2 toPos.1 toPos.2 (some { piece with hasMoved := some true }))
          fromPos.1 fromPos.2 none)
        { startPos := fromPos, endPos := toPos, piece := piece, capturedPiece := targetPiece }

/-- The board held by the component after `makeMove` returns: `setBoard` runs
only on the committed branch, so the pending and empty-origin paths leave the
previous board in place. -/
def makeMoveBoard (bd : Board) (fromPos toPos : Pos) : Board :=
  match makeMove bd fromPos toPos with
  | MoveResult.moved nb _ => nb
  | _ => bd

/-- The transient `{from, to, color}` record created when a pawn reaches the
farthest rank. -/
structure PromotionState where
  fromPos : Pos
  toPos : Pos
  color : Color
deriving DecidableEq, Repr

/-- `handlePromotion`: place the chosen piece on the destination and clear
the origin square. -/
def handlePromotion (bd : Board) (ps : PromotionState) (pieceType : PieceType) : Board :=
  let b1 := setCell bd ps.toPos.1 ps.toPos.2
    (some { type := pieceType, color := ps.color, hasMoved := none })
  setCell b1 ps.fromPos.1 ps.fromPos.2 none

/-- `handleUndo` of App.tsx as a function of the board and the last move
record: put the pre-move snapshot back with `hasMoved: false`, restore the
recorded captured piece on the destination, and reverse castling rook
relocation (clearing the rook's `hasMoved` when the field exists). -/
def handleUndo (bd : Board) (lastMove : MoveRecord) : Board :=
  let fromRow := lastMove.startPos.1
  let fromCol := lastMove.startPos.2
  let toRow := lastMove.endPos.1
  let toCol := lastMove.endPos.2
  let b1 := setCell bd fromRow fromCol (some { lastMove.piece with hasMoved := some false })
  let b2 := setCell b1 toRow toCol lastMove.capturedPiece
  if lastMove.piece.type = PieceType.k ∧ (toCol - fromCol).natAbs = 2 then
    if toCol = 6 then
      let b3 := setCell b2 fromRow 7 (cell b2 fromRow 5)
      let b4 := setCell b3 fromRow 5 none
      match cell b4 fromRow 7 with
      | some rk =>
        if rk.hasMoved.isSome then setCell b4 fromRow 7 (some { rk with hasMoved := some false })
        else b4
      | none => b4
    else if toCol = 2 then
      let b3 := setCell b2 fromRow 0 (cell b2 fromRow 3)
      let b4 := setCell b3 fromRow 3 none
      match cell b4 fromRow 0 with
      | some rk =>
        if rk.hasMoved.isSome then setCell b4 fromRow 0 (some { rk with hasMoved := some false })
        else b4
      | none => b4
    else b2
  else b2

/-! ## Reference-level (aliasing) model of the move executor

`makeMove` copies the board with `board.map(row => [...row])`: the row arrays
are fresh but the `Piece` objects inside them are the very objects of the
caller's board.  To settle whether the caller's board can change, the model
below makes object identity explicit: a heap of piece objects and boards of
references into it.  Cell writes touch only the copied rows; property writes
(`rook.hasMoved = true`) mutate the heap and are therefore visible through
every board holding that reference. -/

abbrev Heap := List Piece

abbrev HBoard := List (List (Option Nat))

/-- Reference-board cell read. -/
def hcell (hb : HBoard) (r c : Int) : Option Nat :=
  if 0 ≤ r ∧ 0 ≤ c then gridGet hb r.toNat c.toNat else none

/-- Reference-board cell write (on the copied rows). -/
def hsetCell (hb : HBoard) (r c : Int) (v : Option Nat) : HBoard :=
  if 0 ≤ r ∧ 0 ≤ c then gridSet hb r.toNat c.toNat v else hb

/-- The piece values a board of references denotes under a heap. -/
def derefBoard (h : Heap) (hb : HBoard) : Board :=
  hb.map (fun row => row.map (fun o => o.bind h.get?))

/-- `makeMove` again, with object identity explicit.  Returns the final heap
and the board the component state holds afterwards (the fresh copy on the
committed branch, the untouched previous board on the early returns).
`newBoard[fromRow][5]!.hasMoved = true` is a heap write at the rook's
reference, and the normal relocation `{ ...piece, hasMoved: true }` is a
fresh allocation. -/
def makeMoveH (h : Heap) (hb : HBoard) (fromPos toPos : Pos) : Heap × HBoard :=
  match (hcell hb fromPos.1 fromPos.2).bind h.get? with
  | none => (h, hb)
  | some piece =>
    let targetRef := hcell hb toPos.1 toPos.2
    let nb := hb
    let nb :=
      if piece.type = PieceType.p ∧ (fromPos.2 - toPos.2).natAbs = 1 ∧
          targetRef.bind h.get? = none then
        hsetCell nb (toPos.1 - pawnDir piece.color) toPos.2 none
      else nb
    let state :=
      if piece.type = PieceType.k ∧ (toPos.2 - fromPos.2).natAbs = 2 then
        if toPos.2 = 6 then
          let nb' := hsetCell nb fromPos.1 5 (hcell nb fromPos.1 7)
          let nb'' := hsetCell nb' fromPos.1 7 none
          match hcell nb'' fromPos.1 5 with
          | some ref =>
            match h.get? ref with
            | some rk => (h.set ref { rk with hasMoved := some true }, nb'')
            | none => (h, nb'')
          | none => (h, nb'')
        else if toPos.2 = 2 then
          let nb' := hsetCell nb fromPos.1 3 (hcell nb fromPos.1 0)
          let nb'' := hsetCell nb' fromPos.1 0 none
          match hcell nb'' fromPos.1 3 with
          | some ref =>
            match h.get? ref with
            | some rk => (h.set ref { rk with hasMoved := some true }, nb'')
            | none => (h, nb'')
          | none => (h, nb'')
        else (h, nb)
      else (h, nb)
    let h' := state.1
    let nb2 := state.2
    if piece.type = PieceType.p ∧ (toPos.1 = 0 ∨ toPos.1 = 7) then
      (h', hb)
    else
      let newRef := h'.length
      let h'' := h' ++ [{ piece with hasMoved := some true }]
      let nb3 := hsetCell nb2 toPos.1 toPos.2 (some newRef)
      let nb4 := hsetCell nb3 fromPos.1 fromPos.2 none
      (h'', nb4)

/-! ## Concrete boards for witnesses and counterexamples -/

def emptyRow : List (Option Piece) := List.replicate 8 none

def emptyBoard : Board := List.replicate 8 emptyRow

/-- Build a sparse test board from a placement list. -/
def mkBoard (ps : List (Int × Int × Piece)) : Board :=
  ps.foldl (fun b x => setCell b x.1 x.2.1 (some x.2.2)) emptyBoard

def wK : Piece := { type := PieceType.k, color := Color.w, hasMoved := some false }

def bK : Piece := { type := PieceType.k, color := Color.b, hasMoved := some false }

def wR : Piece := { type := PieceType.r, color := Color.w, hasMoved := some false }

def bR : Piece := { type := PieceType.r, color := Color.b, hasMoved := some false }

def wP : Piece := { type := PieceType.p, color := Color.w, hasMoved := none }

def bP : Piece := { type := PieceType.p, color := Color.b, hasMoved := none }

/-- Two lone kings: a minimal well-formed position. -/
def kingsOnlyBoard : Board := mkBoard [(7, 4, wK), (0, 4, bK)]

/-- White king and kingside rook ready to castle, black king far away
(scenario 3 of the spec). -/
def castleBoard : Board := mkBoard [(7, 4, wK), (7, 7, wR), (0, 4, bK)]

/-- White pawn on (3,4) beside a WHITE pawn on (3,3): with a last move ending
on (3,3) the en-passant branch fires although the adjacent pawn is the
mover's own color. -/
def epSameColorBoard : Board := mkBoard [(3, 4, wP), (3, 3, wP), (7, 4, wK), (0, 4, bK)]

/-- Genuine en-passant position: white pawn on (3,4), black pawn just
double-advanced to (3,3) (scenario 2 of the spec). -/
def epRealBoard : Board := mkBoard [(3, 4, wP), (3, 3, bP), (7, 4, wK), (0, 4, bK)]

/-- A white rook that has already moved (hasMoved = true), plus the kings. -/
def undoDemoBoard : Board :=
  mkBoard [(7, 4, wK), (0, 4, bK),
    (7, 0, { type := PieceType.r, color := Color.w, hasMoved := some true })]

/-- The move record `makeMove` produces for the rook move (7,0) → (5,0) on
`undoDemoBoard`. -/
def undoDemoRecord : MoveRecord :=
  { startPos := (7, 0), endPos := (5, 0),
    piece := { type := PieceType.r, color := Color.w, hasMoved := some true },
    capturedPiece := none }

/-- White pawn one step from promotion, kings out of the way
(scenario 5 of the spec). -/
def promoBoard : Board := mkBoard [(1, 3, wP), (7, 4, wK), (0, 6, bK)]

/-- White king in check from a black rook on its back rank. -/
def checkBoard : Board := mkBoard [(7, 4, wK), (0, 4, bK), (7, 0, bR)]

/-- Build a sparse reference board from a placement list of heap indices. -/
def mkHBoard (ps : List (Int × Int × Nat)) : HBoard :=
  ps.foldl (fun b x => hsetCell b x.1 x.2.1 (some x.2.2))
    (List.replicate 8 (List.replicate 8 none))

/-- Heap for the castling aliasing demonstration: object 0 is the white king,
object 1 the white rook. -/
def castleHeap : Heap := [wK, wR]

/-- Reference board sharing those objects: king at (7,4), rook at (7,7). -/
def castleHBoard : HBoard := mkHBoard [(7, 4, 0), (7, 7, 1)]

/-! ## Infrastructure lemmas -/

theorem color_ne_iff (x c : Color) : x ≠ c ↔ x = oppColor c := by
  cases x <;> cases c <;> simp [oppColor]

theorem attackLoop_eq (bd : Board) (c : Color) (target : Pos) :
    attackLoop bd c target = isPositionUnderAttack target (oppColor c) bd := by
  unfold attackLoop isPositionUnderAttack
  congr 1
  funext sq
  cases hc : cell bd sq.1 sq.2 with
  | none => rfl
  | some piece =>
    show (if piece.color ≠ c then decide (target ∈ getRawPieceMoves sq piece bd none)
        else false) =
      (if piece.color = oppColor c then decide (target ∈ getRawPieceMoves sq piece bd none)
        else false)
    by_cases h : piece.color = oppColor c
    · rw [if_pos ((color_ne_iff piece.color c).mpr h), if_pos h]
    · rw [if_neg (fun hne => h ((color_ne_iff piece.color c).mp hne)), if_neg h]

theorem mem_addMove {bd : Board} {piece : Piece} {r c : Int} {x : Pos}
    (hx : x ∈ addMove bd piece r c) :
    x = (r, c) ∧ inRange r c = true ∧
      ∀ q, cell bd r c = some q → q.color ≠ piece.color := by
  unfold addMove at hx
  split at hx
  · next hin =>
    split at hx
    · next hcell =>
      refine ⟨by simpa using hx, hin, ?_⟩
      intro q hq
      rw [hcell] at hq
      cases hq
    · next t hcell =>
      split at hx
      · next hcol =>
        refine ⟨by simpa using hx, hin, ?_⟩
        intro q hq
        rw [hcell] at hq
        injection hq with h
        subst h
        exact hcol
      · cases hx
  · cases hx

theorem filterOpt_mem {α : Type} {p : α → Option Bool} {l ms : List α}
    (h : filterOpt p l = some ms) : ∀ a ∈ ms, a ∈ l ∧ p a = some true := by
  induction l generalizing ms with
  | nil =>
    have h2 : (some ([] : List α) : Option (List α)) = some ms := h
    injection h2 with h3
    subst h3
    intro a ha
    cases ha
  | cons x l ih =>
    intro a ha
    unfold filterOpt at h
    cases hp : p x with
    | none => rw [hp] at h; cases h
    | some keep =>
      rw [hp] at h
      cases hrest : filterOpt p l with
      | none => rw [hrest] at h; cases h
      | some rest =>
        rw [hrest] at h
        simp only [Option.bind_eq_bind, Option.some_bind, Option.pure_def,
          Option.some.injEq] at h
        subst h
        by_cases hk : keep = true
        · subst hk
          rw [if_pos rfl] at ha
          rcases List.mem_cons.mp ha with rfl | hmem
          · exact ⟨List.mem_cons_self _ _, hp⟩
          · obtain ⟨h1, h2⟩ := ih hrest a hmem
            exact ⟨List.mem_cons_of_mem _ h1, h2⟩
        · rw [if_neg hk] at ha
          obtain ⟨h1, h2⟩ := ih hrest a ha
          exact ⟨List.mem_cons_of_mem _ h1, h2⟩

theorem mem_allSquares {x : Pos} :
    x ∈ allSquares ↔ 0 ≤ x.1 ∧ x.1 < 8 ∧ 0 ≤ x.2 ∧ x.2 < 8 := by
  obtain ⟨r, c⟩ := x
  simp only [allSquares, List.mem_flatMap, List.mem_map, List.mem_range]
  constructor
  · rintro ⟨a, ha, b, hb, h⟩
    simp only [List.pure_def, List.bind_eq_flatMap, List.mem_flatMap, List.mem_range,
      List.mem_singleton] at hb
    obtain ⟨b0, hb0, rfl⟩ := hb
    rw [Prod.mk.injEq] at h
    obtain ⟨hh1, hh2⟩ := h
    subst hh1
    subst hh2
    refine ⟨?_, ?_, ?_, ?_⟩ <;> omega
  · rintro ⟨h1, h2, h3, h4⟩
    refine ⟨r.toNat, by omega, c.toNat, ?_, ?_⟩
    · simp only [List.pure_def, List.bind_eq_flatMap, List.mem_flatMap, List.mem_range,
        List.mem_singleton]
      exact ⟨c.toNat, by omega, rfl⟩
    · rw [Prod.mk.injEq]
      constructor <;> omega

theorem getElem?_some_lt {α : Type} {l : List α} {n : Nat} {a : α} (h : l[n]? = some a) :
    n < l.length := by
  by_contra hc
  rw [List.getElem?_eq_none_iff.mpr (by omega)] at h
  cases h

theorem getElem?_some_mem {α : Type} {l : List α} {n : Nat} {a : α} (h : l[n]? = some a) :
    a ∈ l := by
  rw [← List.get?_eq_getElem?] at h
  exact List.get?_mem h

theorem gridGet_some_bounds {α : Type} {g : List (List (Option α))}
    (h8 : g.length = 8) (hrows : ∀ row ∈ g, row.length = 8) {r c : Nat} {a : α}
    (h : gridGet g r c = some a) : r < 8 ∧ c < 8 := by
  unfold gridGet at h
  cases hrow : g[r]? with
  | none => rw [hrow] at h; cases h
  | some row =>
    rw [hrow] at h
    simp only [Option.some_bind] at h
    cases hcol : row[c]? with
    | none => rw [hcol] at h; cases h
    | some v =>
      have h1 := getElem?_some_lt hrow
      have h2 := getElem?_some_lt hcol
      have h3 := hrows row (getElem?_some_mem hrow)
      omega

theorem gridGet_gridSet_self {α : Type} {g : List (List (Option α))}
    (h8 : g.length = 8) (hrows : ∀ row ∈ g, row.length = 8) {r c : Nat}
    (hr : r < 8) (hc : c < 8) (v : Option α) :
    gridGet (gridSet g r c v) r c = v := by
  obtain ⟨row, hrow⟩ : ∃ row, g[r]? = some row := by
    cases hget : g[r]? with
    | none =>
      rw [List.getElem?_eq_none_iff] at hget
      omega
    | some row => exact ⟨row, rfl⟩
  have hrow8 : row.length = 8 := hrows row (getElem?_some_mem hrow)
  unfold gridSet
  rw [hrow]
  unfold gridGet
  rw [List.getElem?_set_eq_of_lt _ (by omega)]
  simp only [Option.some_bind]
  rw [List.getElem?_set_eq_of_lt _ (by omega)]
  rfl

theorem gridGet_gridSet_ne {α : Type} {g : List (List (Option α))} {r c r2 c2 : Nat}
    (v : Option α) (h : r ≠ r2 ∨ c ≠ c2) :
    gridGet (gridSet g r c v) r2 c2 = gridGet g r2 c2 := by
  unfold gridSet
  cases hrow : g[r]? with
  | none => rfl
  | some row =>
    unfold gridGet
    by_cases hrr : r = r2
    · subst hrr
      have hcc : c ≠ c2 := by tauto
      rw [List.getElem?_set_eq_of_lt _ (getElem?_some_lt hrow)]
      rw [hrow]
      simp only [Option.some_bind]
      rw [List.getElem?_set_ne hcc]
    · rw [List.getElem?_set_ne hrr]

theorem gridSet_length {α : Type} (g : List (List (Option α))) (r c : Nat) (v : Option α) :
    (gridSet g r c v).length = g.length := by
  unfold gridSet
  cases g[r]? with
  | none => rfl
  | some row => rw [List.length_set]

theorem gridSet_rows {α : Type} {g : List (List (Option α))}
    (hrows : ∀ row ∈ g, row.length = 8) (r c : Nat) (v : Option α) :
    ∀ row ∈ gridSet g r c v, row.length = 8 := by
  unfold gridSet
  cases hrow : g[r]? with
  | none => exact hrows
  | some row =>
    intro row2 hmem
    rcases List.mem_or_eq_of_mem_set hmem with h | h
    · exact hrows row2 h
    · subst h
      rw [List.length_set]
      exact hrows row (getElem?_some_mem hrow)

theorem cell_some_bounds {bd : Board} (hwf : boardWF bd) {r c : Int} {q : Piece}
    (h : cell bd r c = some q) : 0 ≤ r ∧ r < 8 ∧ 0 ≤ c ∧ c < 8 := by
  unfold cell at h
  split at h
  · next hrc =>
    have := gridGet_some_bounds hwf.1 hwf.2 h
    omega
  · cases h

theorem setCell_boardWF {bd : Board} (hwf : boardWF bd) (r c : Int) (v : Option Piece) :
    boardWF (setCell bd r c v) := by
  unfold setCell
  split
  · exact ⟨by rw [gridSet_length]; exact hwf.1, gridSet_rows hwf.2 _ _ _⟩
  · exact hwf

theorem cell_setCell_self {bd : Board} (hwf : boardWF bd) {r c : Int}
    (hr : 0 ≤ r ∧ r < 8) (hc : 0 ≤ c ∧ c < 8) (v : Option Piece) :
    cell (setCell bd r c v) r c = v := by
  unfold cell setCell
  rw [if_pos ⟨hr.1, hc.1⟩, if_pos ⟨hr.1, hc.1⟩]
  exact gridGet_gridSet_self hwf.1 hwf.2 (by omega) (by omega) v

theorem cell_setCell_ne {bd : Board} {r c r2 c2 : Int} (v : Option Piece)
    (h : r ≠ r2 ∨ c ≠ c2) :
    cell (setCell bd r c v) r2 c2 = cell bd r2 c2 := by
  unfold cell setCell
  by_cases hrc : 0 ≤ r ∧ 0 ≤ c
  · rw [if_pos hrc]
    by_cases hrc2 : 0 ≤ r2 ∧ 0 ≤ c2
    · rw [if_pos hrc2, if_pos hrc2]
      refine gridGet_gridSet_ne v ?_
      rcases h with h | h
      · by_cases hrr : r = r2
        · exact absurd hrr h
        · left; omega
      · by_cases hcc : c = c2
        · exact absurd hcc h
        · right; omega
    · rw [if_neg hrc2, if_neg hrc2]
  · rw [if_neg hrc]

theorem legal_imp_wouldBeInCheck_false {pos : Pos} {piece : Piece} {bd : Board}
    {lastMove : Option (Pos × Pos)} {ms : List Pos} {dest : Pos}
    (h : getLegalMoves pos piece bd lastMove = some ms) (hd : dest ∈ ms) :
    wouldBeInCheck bd pos dest piece.color = some false := by
  unfold getLegalMoves at h
  by_cases hk : piece.type = PieceType.k
  · rw [if_pos hk] at h
    have hp := (filterOpt_mem h dest hd).2
    simp only at hp
    by_cases hcast : (dest.2 - pos.2).natAbs = 2
    · rw [if_pos hcast] at hp
      cases hchk : isInCheck bd piece.color with
      | none => rw [hchk] at hp; cases hp
      | some chk =>
        rw [hchk] at hp
        simp only [Option.bind_eq_bind, Option.some_bind] at hp
        by_cases hc : chk = true
        · subst hc
          rw [if_pos rfl] at hp
          cases hp
        · have hc0 : chk = false := by
            cases chk
            · rfl
            · exact absurd rfl hc
          subst hc0
          rw [if_neg (by simp)] at hp
          by_cases hatt :
              isPositionUnderAttack (pos.1, pos.2 + if dest.2 = 6 then 1 else -1)
                (oppColor piece.color) bd = true
          · rw [if_pos hatt] at hp
            cases hp
          · rw [if_neg hatt] at hp
            cases hw : wouldBeInCheck bd pos dest piece.color with
            | none => rw [hw] at hp; cases hp
            | some w =>
              rw [hw] at hp
              simp only [Option.bind_eq_bind, Option.some_bind, Option.some.injEq] at hp
              cases w
              · rfl
              · cases hp
    · rw [if_neg hcast] at hp
      cases hw : wouldBeInCheck bd pos dest piece.color with
      | none => rw [hw] at hp; cases hp
      | some w =>
        rw [hw] at hp
        simp only [Option.bind_eq_bind, Option.some_bind, Option.some.injEq] at hp
        cases w
        · rfl
        · cases hp
  · rw [if_neg hk] at h
    have hp := (filterOpt_mem h dest hd).2
    simp only at hp
    cases hw : wouldBeInCheck bd pos dest piece.color with
    | none => rw [hw] at hp; cases hp
    | some w =>
      rw [hw] at hp
      simp only [Option.bind_eq_bind, Option.some_bind, Option.some.injEq] at hp
      cases w
      · rfl
      · cases hp

theorem wouldBeInCheck_false_attack {bd : Board} {fromPos toPos kingPos : Pos}
    {piece : Piece} {movingColor : Color}
    (hpiece : cell bd fromPos.1 fromPos.2 = some piece)
    (hking : (if piece.type = PieceType.k then some toPos
      else findKing (simulateMove bd fromPos toPos piece) movingColor) = some kingPos)
    (hw : wouldBeInCheck bd fromPos toPos movingColor = some false) :
    isPositionUnderAttack kingPos (oppColor movingColor)
      (simulateMove bd fromPos toPos piece) = false := by
  unfold wouldBeInCheck at hw
  rw [hpiece] at hw
  have hw2 : (match (if piece.type = PieceType.k then some toPos
      else findKing (simulateMove bd fromPos toPos piece) movingColor) with
    | none => (none : Option Bool)
    | some kp => some (attackLoop (simulateMove bd fromPos toPos piece) movingColor kp)) =
      some false := hw
  rw [hking] at hw2
  have hw3 : some (attackLoop (simulateMove bd fromPos toPos piece) movingColor kingPos) =
      some false := hw2
  injection hw3 with hw4
  rw [← attackLoop_eq]
  exact hw4

/-! ## Claim theorems -/

/-- C8: for every board, position, piece and optional last move, every
destination in the set returned by `getLegalMoves` is also in the set
returned by `getRawPieceMoves` on the same arguments. -/
theorem c8_legalMoves_subset_rawMoves (pos : Pos) (piece : Piece) (bd : Board)
    (lastMove : Option (Pos × Pos)) (ms : List Pos) (dest : Pos)
    (h : getLegalMoves pos piece bd lastMove = some ms) (hd : dest ∈ ms) :
    dest ∈ getRawPieceMoves pos piece bd lastMove := by
  unfold getLegalMoves at h
  by_cases hk : piece.type = PieceType.k
  · rw [if_pos hk] at h
    exact (filterOpt_mem h dest hd).1
  · rw [if_neg hk] at h
    exact (filterOpt_mem h dest hd).1

/-- C1: for every board, piece actually occupying the given position, and
optional last move, every destination returned by `getLegalMoves` is safe:
on the board obtained by relocating the moving piece, the opposing color does
not attack the mover's king's square (the destination itself when the moving
piece is the king, the king located by `findKing` otherwise). -/
theorem c1_legal_move_no_self_check (bd : Board) (pos : Pos) (piece : Piece)
    (lastMove : Option (Pos × Pos)) (ms : List Pos) (dest kingPos : Pos)
    (hpiece : cell bd pos.1 pos.2 = some piece)
    (hlegal : getLegalMoves pos piece bd lastMove = some ms)
    (hdest : dest ∈ ms)
    (hking : (if piece.type = PieceType.k then some dest
      else findKing (simulateMove bd pos dest piece) piece.color) = some kingPos) :
    isPositionUnderAttack kingPos (oppColor piece.color)
      (simulateMove bd pos dest piece) = false :=
  wouldBeInCheck_false_attack hpiece hking
    (legal_imp_wouldBeInCheck_false hlegal hdest)

/-- The scan of `isInCheckmate` answers `some true` exactly when every
own-color piece on the scanned squares has an empty legal-move set. -/
theorem checkmateScan_eq_true_iff (bd : Board) (color : Color) (l : List Pos) :
    checkmateScan bd color l = some true ↔
      ∀ sq ∈ l, ∀ piece, cell bd sq.1 sq.2 = some piece → piece.color = color →
        getLegalMoves sq piece bd none = some [] := by
  induction l with
  | nil => simp [checkmateScan]
  | cons sq rest ih =>
    unfold checkmateScan
    cases hc : cell bd sq.1 sq.2 with
    | none =>
      show checkmateScan bd color rest = some true ↔ _
      rw [ih]
      simp only [List.forall_mem_cons]
      constructor
      · intro h
        refine ⟨?_, h⟩
        intro piece hpc
        rw [hc] at hpc
        cases hpc
      · intro h
        exact h.2
    | some piece =>
      show (if piece.color = color then
          (match getLegalMoves sq piece bd none with
            | none => none
            | some legalMoves =>
              if legalMoves.length > 0 then some false else checkmateScan bd color rest)
        else checkmateScan bd color rest) = some true ↔ _
      simp only [List.forall_mem_cons]
      by_cases hcol : piece.color = color
      · rw [if_pos hcol]
        cases hlm : getLegalMoves sq piece bd none with
        | none =>
          constructor
          · intro h
            cases h
          · intro h
            have := h.1 piece hc hcol
            rw [hlm] at this
            cases this
        | some legalMoves =>
          cases legalMoves with
          | nil =>
            show checkmateScan bd color rest = some true ↔ _
            rw [ih]
            constructor
            · intro h
              refine ⟨?_, h⟩
              intro piece2 hpc hcol2
              rw [hc] at hpc
              injection hpc with hpc
              subst hpc
              exact hlm
            · intro h
              exact h.2
          | cons m others =>
            show (if (m :: others).length > 0 then some false
              else checkmateScan bd color rest) = some true ↔ _
            rw [if_pos (by simp)]
            constructor
            · intro h
              injection h with h
              cases h
            · intro h
              have := h.1 piece hc hcol
              rw [hlm] at this
              injection this with this
              cases this
      · rw [if_neg hcol]
        rw [ih]
        constructor
        · intro h
          refine ⟨?_, h⟩
          intro piece2 hpc hcol2
          rw [hc] at hpc
          injection hpc with hpc
          subst hpc
          exact absurd hcol2 hcol
        · intro h
          exact h.2

/-- C3: for every board and color, `isInCheckmate` answers true exactly when
`isInCheck` answers true and every own-color piece on the board has an empty
legal-move set; and a position that is not in check (in particular a
stalemate) is never reported as checkmate. -/
theorem c3_checkmate_iff (bd : Board) (color : Color) :
    (isInCheckmate bd color = some true ↔
      (isInCheck bd color = some true ∧
        ∀ sq ∈ allSquares, ∀ piece, cell bd sq.1 sq.2 = some piece → piece.color = color →
          getLegalMoves sq piece bd none = some []))
    ∧ (isInCheck bd color = some false → isInCheckmate bd color = some false) := by
  constructor
  · unfold isInCheckmate
    cases hchk : isInCheck bd color with
    | none =>
      constructor
      · intro h
        cases h
      · intro h
        cases h.1
    | some chk =>
      cases chk
      · show some false = some true ↔ _
        constructor
        · intro h
          injection h with h
          cases h
        · intro h
          injection h.1 with h1
          cases h1
      · show checkmateScan bd color allSquares = some true ↔ _
        rw [checkmateScan_eq_true_iff]
        constructor
        · intro h
          exact ⟨rfl, h⟩
        · intro h
          exact h.2
  · intro h
    unfold isInCheckmate
    rw [h]
    rfl

/-- C9 part bridge: `findKing` answers `none` exactly when no square of the
board holds a king of the given color. -/
theorem findKing_eq_none_iff (bd : Board) (color : Color) (hwf : boardWF bd) :
    findKing bd color = none ↔
      ∀ r c piece, cell bd r c = some piece →
        ¬(piece.type = PieceType.k ∧ piece.color = color) := by
  unfold findKing
  rw [List.find?_eq_none]
  constructor
  · intro h r c piece hcell hkc
    have hb := cell_some_bounds hwf hcell
    have hmem : ((r, c) : Pos) ∈ allSquares := mem_allSquares.mpr (by omega)
    have := h (r, c) hmem
    apply this
    show (match cell bd r c with
      | some piece => decide (piece.type = PieceType.k) && decide (piece.color = color)
      | none => false) = true
    rw [hcell]
    simp [hkc.1, hkc.2]
  · intro h sq hmem
    cases hcell : cell bd sq.1 sq.2 with
    | none =>
      show ¬(false = true)
      simp
    | some piece =>
      show ¬((decide (piece.type = PieceType.k) && decide (piece.color = color)) = true)
      simp only [Bool.and_eq_true, decide_eq_true_eq]
      intro hkc
      exact h sq.1 sq.2 piece hcell hkc

/-- C9: for every fully populated board and color, `isInCheck` fails with the
king-not-found error exactly when no king of that color is on the board, and
when the king is found it answers true exactly when some piece of the
opposing color has a raw move onto the king's square. -/
theorem c9_isInCheck_spec (bd : Board) (color : Color) (hwf : boardWF bd) :
    (isInCheck bd color = none ↔
      ∀ r c piece, cell bd r c = some piece →
        ¬(piece.type = PieceType.k ∧ piece.color = color))
    ∧ ∀ kingPos, findKing bd color = some kingPos →
        (isInCheck bd color = some true ↔
          ∃ sq piece, sq ∈ allSquares ∧ cell bd sq.1 sq.2 = some piece ∧
            piece.color = oppColor color ∧ kingPos ∈ getRawPieceMoves sq piece bd none) := by
  constructor
  · rw [← findKing_eq_none_iff bd color hwf]
    unfold isInCheck
    cases h : findKing bd color with
    | none => simp
    | some kp => simp
  · intro kingPos hfk
    unfold isInCheck
    rw [hfk]
    show some (isPositionUnderAttack kingPos (oppColor color) bd) = some true ↔ _
    unfold isPositionUnderAttack
    constructor
    · intro h
      injection h with h
      obtain ⟨sq, hmem, hpred⟩ := List.any_eq_true.mp h
      cases hcell : cell bd sq.1 sq.2 with
      | none =>
        rw [hcell] at hpred
        have hpred2 : (false = true) := hpred
        cases hpred2
      | some piece =>
        rw [hcell] at hpred
        have hpred2 : (if piece.color = oppColor color then
            decide (kingPos ∈ getRawPieceMoves sq piece bd none)
          else false) = true := hpred
        refine ⟨sq, piece, hmem, hcell, ?_⟩
        by_cases hco : piece.color = oppColor color
        · rw [if_pos hco] at hpred2
          exact ⟨hco, of_decide_eq_true hpred2⟩
        · rw [if_neg hco] at hpred2
          cases hpred2
    · rintro ⟨sq, piece, hmem, hcell, hco, hraw⟩
      have hp : (fun sq => match cell bd sq.1 sq.2 with
          | some piece => if piece.color = oppColor color then
              decide (kingPos ∈ getRawPieceMoves sq piece bd none)
            else false
          | none => false) sq = true := by
        show (match cell bd sq.1 sq.2 with
          | some piece => if piece.color = oppColor color then
              decide (kingPos ∈ getRawPieceMoves sq piece bd none)
            else false
          | none => false) = true
        rw [hcell]
        show (if piece.color = oppColor color then
            decide (kingPos ∈ getRawPieceMoves sq piece bd none)
          else false) = true
        rw [if_pos hco]
        exact decide_eq_true hraw
      rw [List.any_eq_true.mpr ⟨sq, hmem, hp⟩]

/-! ## Decomposition of the raw move generator -/

theorem getRawPieceMoves_eq_p {pos : Pos} {piece : Piece} {bd : Board}
    {lm : Option (Pos × Pos)} (hk : piece.type = PieceType.p) :
    getRawPieceMoves pos piece bd lm = pawnMoves bd piece pos.1 pos.2 lm := by
  unfold getRawPieceMoves
  rw [hk]

theorem getRawPieceMoves_eq_k {pos : Pos} {piece : Piece} {bd : Board}
    {lm : Option (Pos × Pos)} (hk : piece.type = PieceType.k) :
    getRawPieceMoves pos piece bd lm = kingMovesRaw bd piece pos.1 pos.2 := by
  unfold getRawPieceMoves
  rw [hk]

theorem mem_slide {bd : Board} {piece : Piece} {dr dc : Int} :
    ∀ {fuel : Nat} {r c : Int} {x : Pos}, x ∈ slide bd piece dr dc fuel r c →
      inRange x.1 x.2 = true ∧ ∀ q, cell bd x.1 x.2 = some q → q.color ≠ piece.color := by
  intro fuel
  induction fuel with
  | zero => intro r c x hx; cases hx
  | succ fuel ih =>
    intro r c x hx
    unfold slide at hx
    split at hx
    · split at hx
      · rcases List.mem_append.mp hx with hx | hx
        · obtain ⟨rfl, h2, h3⟩ := mem_addMove hx
          exact ⟨h2, h3⟩
        · exact ih hx
      · split at hx
        · obtain ⟨rfl, h2, h3⟩ := mem_addMove hx
          exact ⟨h2, h3⟩
        · cases hx
    · cases hx

theorem mem_pawnMoves {bd : Board} {piece : Piece} {row col : Int}
    {lastMove : Option (Pos × Pos)} {x : Pos}
    (hx : x ∈ pawnMoves bd piece row col lastMove) :
    inRange x.1 x.2 = true ∧ ∀ q, cell bd x.1 x.2 = some q → q.color ≠ piece.color := by
  unfold pawnMoves at hx
  rcases List.mem_append.mp hx with hx | hx
  · unfold pawnForward at hx
    split at hx
    · rcases List.mem_append.mp hx with hx | hx
      · obtain ⟨rfl, h2, h3⟩ := mem_addMove hx
        exact ⟨h2, h3⟩
      · split at hx
        · obtain ⟨rfl, h2, h3⟩ := mem_addMove hx
          exact ⟨h2, h3⟩
        · cases hx
    · cases hx
  · obtain ⟨offset, hoff, hx⟩ := List.mem_flatMap.mp hx
    unfold pawnCapture at hx
    split at hx
    · rcases List.mem_append.mp hx with hx | hx
      · split at hx
        · split at hx
          · obtain ⟨rfl, h2, h3⟩ := mem_addMove hx
            exact ⟨h2, h3⟩
          · cases hx
        · cases hx
      · split at hx
        · split at hx
          · obtain ⟨rfl, h2, h3⟩ := mem_addMove hx
            exact ⟨h2, h3⟩
          · cases hx
        · cases hx
    · cases hx

theorem ksCastleCond_spec {bd : Board} {piece : Piece} {row : Int}
    (h : ksCastleCond bd piece row = true) :
    (∃ rk, cell bd row 7 = some rk ∧ rk.type = PieceType.r ∧ rk.color = piece.color ∧
      truthy rk.hasMoved = false) ∧ cell bd row 5 = none ∧ cell bd row 6 = none := by
  unfold ksCastleCond at h
  simp only [Bool.and_eq_true, decide_eq_true_eq] at h
  obtain ⟨⟨h1, h2⟩, h3⟩ := h
  refine ⟨?_, h2, h3⟩
  unfold rookReady at h1
  cases hcell : cell bd row 7 with
  | none =>
    rw [hcell] at h1
    cases h1
  | some rk =>
    rw [hcell] at h1
    have h4 : (decide (rk.type = PieceType.r) && decide (rk.color = piece.color) &&
      !(truthy rk.hasMoved)) = true := h1
    simp only [Bool.and_eq_true, decide_eq_true_eq, Bool.not_eq_eq_eq_not,
      Bool.not_true] at h4
    exact ⟨rk, rfl, h4.1.1, h4.1.2, by simpa using h4.2⟩

theorem qsCastleCond_spec {bd : Board} {piece : Piece} {row : Int}
    (h : qsCastleCond bd piece row = true) :
    (∃ rk, cell bd row 0 = some rk ∧ rk.type = PieceType.r ∧ rk.color = piece.color ∧
      truthy rk.hasMoved = false) ∧ cell bd row 1 = none ∧ cell bd row 2 = none ∧
      cell bd row 3 = none := by
  unfold qsCastleCond at h
  simp only [Bool.and_eq_true, decide_eq_true_eq] at h
  obtain ⟨⟨⟨h1, h2⟩, h3⟩, h5⟩ := h
  refine ⟨?_, h2, h3, h5⟩
  unfold rookReady at h1
  cases hcell : cell bd row 0 with
  | none =>
    rw [hcell] at h1
    cases h1
  | some rk =>
    rw [hcell] at h1
    have h4 : (decide (rk.type = PieceType.r) && decide (rk.color = piece.color) &&
      !(truthy rk.hasMoved)) = true := h1
    simp only [Bool.and_eq_true, decide_eq_true_eq, Bool.not_eq_eq_eq_not,
      Bool.not_true] at h4
    exact ⟨rk, rfl, h4.1.1, h4.1.2, by simpa using h4.2⟩

theorem mem_kingMovesRaw {bd : Board} {piece : Piece} {row col : Int} {x : Pos}
    (hx : x ∈ kingMovesRaw bd piece row col) :
    (∃ d ∈ kingOffsets, x ∈ addMove bd piece (row + d.1) (col + d.2)) ∨
    (truthy piece.hasMoved = false ∧ ksCastleCond bd piece row = true ∧ x = (row, 6)) ∨
    (truthy piece.hasMoved = false ∧ qsCastleCond bd piece row = true ∧ x = (row, 2)) := by
  unfold kingMovesRaw at hx
  simp only at hx
  split at hx
  · next hmoved =>
    rcases List.mem_append.mp hx with hx | hx
    · rcases List.mem_append.mp hx with hx | hx
      · exact Or.inl (List.mem_flatMap.mp hx)
      · split at hx
        · next hcond =>
          rcases List.mem_singleton.mp hx with rfl
          exact Or.inr (Or.inl ⟨hmoved, hcond, rfl⟩)
        · cases hx
    · split at hx
      · next hcond =>
        rcases List.mem_singleton.mp hx with rfl
        exact Or.inr (Or.inr ⟨hmoved, hcond, rfl⟩)
      · cases hx
  · exact Or.inl (List.mem_flatMap.mp hx)

/-- C10: on a fully populated board, with the origin in range, every
destination returned by `getRawPieceMoves` has row and column in 0..7 and is
never occupied by a piece of the mover's own color. -/
theorem c10_raw_moves_safe (bd : Board) (pos : Pos) (piece : Piece)
    (lastMove : Option (Pos × Pos)) (hwf : boardWF bd)
    (hpr : 0 ≤ pos.1 ∧ pos.1 < 8) (hpc : 0 ≤ pos.2 ∧ pos.2 < 8) :
    ∀ dest ∈ getRawPieceMoves pos piece bd lastMove,
      (0 ≤ dest.1 ∧ dest.1 < 8 ∧ 0 ≤ dest.2 ∧ dest.2 < 8) ∧
        ∀ q, cell bd dest.1 dest.2 = some q → q.color ≠ piece.color := by
  intro dest hdest
  have hconv : ∀ {r c : Int}, inRange r c = true → 0 ≤ r ∧ r < 8 ∧ 0 ≤ c ∧ c < 8 := by
    intro r c h
    unfold inRange at h
    simp only [Bool.and_eq_true, decide_eq_true_eq] at h
    exact ⟨h.1.1.1, h.1.1.2, h.1.2, h.2⟩
  unfold getRawPieceMoves at hdest
  cases hpt : piece.type with
  | p =>
    rw [hpt] at hdest
    obtain ⟨h1, h2⟩ := mem_pawnMoves hdest
    exact ⟨hconv h1, h2⟩
  | n =>
    rw [hpt] at hdest
    obtain ⟨d, hd, hmem⟩ := List.mem_flatMap.mp hdest
    obtain ⟨rfl, h2, h3⟩ := mem_addMove hmem
    exact ⟨hconv h2, h3⟩
  | b =>
    rw [hpt] at hdest
    obtain ⟨d, hd, hmem⟩ := List.mem_flatMap.mp hdest
    obtain ⟨h2, h3⟩ := mem_slide hmem
    exact ⟨hconv h2, h3⟩
  | r =>
    rw [hpt] at hdest
    obtain ⟨d, hd, hmem⟩ := List.mem_flatMap.mp hdest
    obtain ⟨h2, h3⟩ := mem_slide hmem
    exact ⟨hconv h2, h3⟩
  | q =>
    rw [hpt] at hdest
    obtain ⟨d, hd, hmem⟩ := List.mem_flatMap.mp hdest
    obtain ⟨h2, h3⟩ := mem_slide hmem
    exact ⟨hconv h2, h3⟩
  | k =>
    rw [hpt] at hdest
    rcases mem_kingMovesRaw hdest with ⟨d, hd, hmem⟩ | ⟨_, hcond, rfl⟩ | ⟨_, hcond, rfl⟩
    · obtain ⟨rfl, h2, h3⟩ := mem_addMove hmem
      exact ⟨hconv h2, h3⟩
    · obtain ⟨_, _, h6⟩ := ksCastleCond_spec hcond
      refine ⟨⟨hpr.1, hpr.2, by omega, by omega⟩, ?_⟩
      intro q hq
      have hq2 : cell bd pos.1 6 = some q := hq
      rw [h6] at hq2
      cases hq2
    · obtain ⟨_, _, h2none, _⟩ := qsCastleCond_spec hcond
      refine ⟨⟨hpr.1, hpr.2, by omega, by omega⟩, ?_⟩
      intro q hq
      have hq2 : cell bd pos.1 2 = some q := hq
      rw [h2none] at hq2
      cases hq2

theorem legal_king_castle_facts {bd : Board} {pos : Pos} {piece : Piece}
    {lastMove : Option (Pos × Pos)} {ms : List Pos} {dest : Pos}
    (hk : piece.type = PieceType.k)
    (h : getLegalMoves pos piece bd lastMove = some ms) (hd : dest ∈ ms)
    (hcast : (dest.2 - pos.2).natAbs = 2) :
    isInCheck bd piece.color = some false ∧
    isPositionUnderAttack (pos.1, pos.2 + (if dest.2 = 6 then 1 else -1))
      (oppColor piece.color) bd = false := by
  unfold getLegalMoves at h
  rw [if_pos hk] at h
  have hp := (filterOpt_mem h dest hd).2
  simp only at hp
  rw [if_pos hcast] at hp
  cases hchk : isInCheck bd piece.color with
  | none => rw [hchk] at hp; cases hp
  | some chk =>
    rw [hchk] at hp
    simp only [Option.bind_eq_bind, Option.some_bind] at hp
    cases chk
    · rw [if_neg (by simp)] at hp
      by_cases hatt :
          isPositionUnderAttack (pos.1, pos.2 + if dest.2 = 6 then 1 else -1)
            (oppColor piece.color) bd = true
      · rw [if_pos hatt] at hp
        cases hp
      · exact ⟨rfl, by simpa using hatt⟩
    · rw [if_pos rfl] at hp
      cases hp

/-- C6: for every board with the moving king located by `findKing` at its
position, every optional last move, and every legal destination two files
from the king, the raw castling preconditions hold (unmoved king, matching
unmoved same-color rook, empty intervening squares — packaged in
`ksCastleCond` / `qsCastleCond`), the king is not currently in check, the
transit square is not attacked by the opponent, and the destination does not
leave the king in check on the simulated board. -/
theorem c6_castling_conditions (bd : Board) (pos : Pos) (piece : Piece)
    (lastMove : Option (Pos × Pos)) (ms : List Pos) (dest : Pos)
    (hpiece : cell bd pos.1 pos.2 = some piece)
    (hk : piece.type = PieceType.k)
    (hfk : findKing bd piece.color = some pos)
    (hlegal : getLegalMoves pos piece bd lastMove = some ms)
    (hdest : dest ∈ ms)
    (hcast : (dest.2 - pos.2).natAbs = 2) :
    truthy piece.hasMoved = false ∧
    ((dest = (pos.1, 6) ∧ ksCastleCond bd piece pos.1 = true) ∨
      (dest = (pos.1, 2) ∧ qsCastleCond bd piece pos.1 = true)) ∧
    isInCheck bd piece.color = some false ∧
    isPositionUnderAttack (pos.1, pos.2 + (if dest.2 = 6 then 1 else -1))
      (oppColor piece.color) bd = false ∧
    isPositionUnderAttack dest (oppColor piece.color)
      (simulateMove bd pos dest piece) = false := by
  have hraw : dest ∈ getRawPieceMoves pos piece bd lastMove := by
    unfold getLegalMoves at hlegal
    rw [if_pos hk] at hlegal
    exact (filterOpt_mem hlegal dest hdest).1
  rw [getRawPieceMoves_eq_k hk] at hraw
  have hfacts := legal_king_castle_facts hk hlegal hdest hcast
  have hsafe : isPositionUnderAttack dest (oppColor piece.color)
      (simulateMove bd pos dest piece) = false := by
    refine wouldBeInCheck_false_attack hpiece ?_
      (legal_imp_wouldBeInCheck_false hlegal hdest)
    rw [if_pos hk]
  rcases mem_kingMovesRaw hraw with ⟨d, hd, hmem⟩ | ⟨hmoved, hcond, rfl⟩ |
      ⟨hmoved, hcond, rfl⟩
  · exfalso
    obtain ⟨rfl, _, _⟩ := mem_addMove hmem
    have hd2 : d = ((-1 : Int), (-1 : Int)) ∨ d = (-1, 0) ∨ d = (-1, 1) ∨ d = (0, -1) ∨
        d = (0, 1) ∨ d = (1, -1) ∨ d = (1, 0) ∨ d = (1, 1) := by
      simpa [kingOffsets] using hd
    have habs : ((pos.2 + d.2) - pos.2).natAbs = 2 := hcast
    rcases hd2 with rfl | rfl | rfl | rfl | rfl | rfl | rfl | rfl <;> omega
  · exact ⟨hmoved, Or.inl ⟨rfl, hcond⟩, hfacts.1, hfacts.2, hsafe⟩
  · exact ⟨hmoved, Or.inr ⟨rfl, hcond⟩, hfacts.1, hfacts.2, hsafe⟩

/-! ## Move executor lemmas -/

theorem makeMove_of_piece {bd : Board} {fromPos toPos : Pos} {piece : Piece}
    (hpiece : cell bd fromPos.1 fromPos.2 = some piece) :
    makeMove bd fromPos toPos =
      (if piece.type = PieceType.p ∧ (toPos.1 = 0 ∨ toPos.1 = 7) then
        MoveResult.pending fromPos toPos piece.color
      else
        MoveResult.moved
          (setCell (setCell
              (makeMoveCastle
                (makeMoveEnPassant bd piece fromPos toPos (cell bd toPos.1 toPos.2))
                piece fromPos toPos)
              toPos.1 toPos.2 (some { piece with hasMoved := some true }))
            fromPos.1 fromPos.2 none)
          { startPos := fromPos, endPos := toPos, piece := piece,
            capturedPiece := cell bd toPos.1 toPos.2 }) := by
  unfold makeMove
  rw [hpiece]

/-- C7: when a pawn's move reaches the farthest rank, `makeMove` does not
commit any board change: it returns the promotion-pending record
`{from, to, color}` and the component board stays the input board; a
subsequent `handlePromotion` call places a new piece of the chosen kind and
the pawn's color on the destination and clears the origin square. -/
theorem c7_promotion_pending (bd : Board) (fromPos toPos : Pos) (piece : Piece)
    (hwf : boardWF bd)
    (hpiece : cell bd fromPos.1 fromPos.2 = some piece)
    (hp : piece.type = PieceType.p)
    (hrow : toPos.1 = 0 ∨ toPos.1 = 7)
    (hfr : 0 ≤ fromPos.1 ∧ fromPos.1 < 8) (hfc : 0 ≤ fromPos.2 ∧ fromPos.2 < 8)
    (htr : 0 ≤ toPos.1 ∧ toPos.1 < 8) (htc : 0 ≤ toPos.2 ∧ toPos.2 < 8)
    (hne : fromPos ≠ toPos) :
    makeMove bd fromPos toPos = MoveResult.pending fromPos toPos piece.color ∧
    makeMoveBoard bd fromPos toPos = bd ∧
    ∀ kind,
      cell (handlePromotion bd
          { fromPos := fromPos, toPos := toPos, color := piece.color } kind)
        toPos.1 toPos.2 = some { type := kind, color := piece.color, hasMoved := none } ∧
      cell (handlePromotion bd
          { fromPos := fromPos, toPos := toPos, color := piece.color } kind)
        fromPos.1 fromPos.2 = none := by
  have hmk : makeMove bd fromPos toPos = MoveResult.pending fromPos toPos piece.color := by
    rw [makeMove_of_piece hpiece, if_pos ⟨hp, hrow⟩]
  have hcomp : fromPos.1 ≠ toPos.1 ∨ fromPos.2 ≠ toPos.2 := by
    by_cases h1 : fromPos.1 = toPos.1
    · by_cases h2 : fromPos.2 = toPos.2
      · exact absurd (Prod.ext h1 h2) hne
      · exact Or.inr h2
    · exact Or.inl h1
  refine ⟨hmk, ?_, ?_⟩
  · unfold makeMoveBoard
    rw [hmk]
  · intro kind
    unfold handlePromotion
    constructor
    · rw [cell_setCell_ne _ hcomp]
      exact cell_setCell_self hwf htr htc _
    · exact cell_setCell_self (setCell_boardWF hwf _ _ _) hfr hfc _

/-! ## Pawn capture decomposition (C5) -/

theorem pawnForward_col {bd : Board} {piece : Piece} {row col : Int} {x : Pos}
    (hx : x ∈ pawnForward bd piece row col) : x.2 = col := by
  unfold pawnForward at hx
  split at hx
  · rcases List.mem_append.mp hx with hx | hx
    · obtain ⟨rfl, -, -⟩ := mem_addMove hx
      rfl
    · split at hx
      · obtain ⟨rfl, -, -⟩ := mem_addMove hx
        rfl
      · cases hx
  · cases hx

theorem mem_pawnCapture_eq {bd : Board} {piece : Piece} {row col off : Int}
    {lm : Option (Pos × Pos)} {x : Pos}
    (hx : x ∈ pawnCapture bd piece row col lm off) :
    x = (row + pawnDir piece.color, col + off) := by
  unfold pawnCapture at hx
  split at hx
  · rcases List.mem_append.mp hx with hx | hx
    · split at hx
      · split at hx
        · exact (mem_addMove hx).1
        · cases hx
      · cases hx
    · split at hx
      · split at hx
        · exact (mem_addMove hx).1
        · cases hx
      · cases hx
  · cases hx

theorem pawnCapture_en_passant_iff {bd : Board} {piece : Piece} {row col offset : Int}
    {lm : Option (Pos × Pos)}
    (hdr : 0 ≤ row + pawnDir piece.color ∧ row + pawnDir piece.color < 8)
    (hdc : 0 ≤ col + offset ∧ col + offset < 8)
    (hempty : cell bd (row + pawnDir piece.color) (col + offset) = none) :
    ((row + pawnDir piece.color, col + offset) ∈ pawnCapture bd piece row col lm offset ↔
      ∃ l, lm = some l ∧ isPawnAt bd l.2.1 l.2.2 = true ∧
        (l.1.1 - l.2.1).natAbs = 2 ∧ l.2.2 = col + offset ∧ l.2.1 = row) := by
  constructor
  · intro hx
    unfold pawnCapture at hx
    split at hx
    · rcases List.mem_append.mp hx with hx | hx
      · rw [hempty] at hx
        have hx2 : (row + pawnDir piece.color, col + offset) ∈ ([] : List Pos) := hx
        cases hx2
      · cases lm with
        | none => cases hx
        | some l =>
          have hx2 : (row + pawnDir piece.color, col + offset) ∈
              (if (isPawnAt bd l.2.1 l.2.2 : Prop) ∧ (l.1.1 - l.2.1).natAbs = 2 ∧
                  l.2.2 = col + offset ∧ l.2.1 = row then
                addMove bd piece (row + pawnDir piece.color) (col + offset)
              else []) := hx
          split at hx2
          · next hcond =>
            exact ⟨l, rfl, hcond.1, hcond.2.1, hcond.2.2.1, hcond.2.2.2⟩
          · cases hx2
    · next hb =>
      exact absurd ⟨hdr.1, hdr.2, hdc.1, hdc.2⟩ hb
  · rintro ⟨l, rfl, hc1, hc2, hc3, hc4⟩
    unfold pawnCapture
    rw [if_pos ⟨hdr.1, hdr.2, hdc.1, hdc.2⟩]
    refine List.mem_append.mpr (Or.inr ?_)
    show (row + pawnDir piece.color, col + offset) ∈
      (if (isPawnAt bd l.2.1 l.2.2 : Prop) ∧ (l.1.1 - l.2.1).natAbs = 2 ∧
          l.2.2 = col + offset ∧ l.2.1 = row then
        addMove bd piece (row + pawnDir piece.color) (col + offset)
      else [])
    rw [if_pos ⟨hc1, hc2, hc3, hc4⟩]
    unfold addMove
    have hin : inRange (row + pawnDir piece.color) (col + offset) = true := by
      unfold inRange
      simp only [Bool.and_eq_true, decide_eq_true_eq]
      exact ⟨⟨⟨hdr.1, hdr.2⟩, hdc.1⟩, hdc.2⟩
    rw [if_pos hin, hempty]
    exact List.mem_singleton.mpr rfl

/-- C5 (amended): with the diagonal square in front of the pawn in range and
empty, the raw move generator includes that diagonal destination exactly when
the last move ends on a square holding a pawn — of either color, the source
does not check that it is an opposing pawn — whose recorded move spans two
rows and which sits horizontally adjacent to the mover on the mover's current
rank; and applying that en-passant move removes the pawn from that adjacent
square (one rank behind the destination) while the destination receives the
moving pawn. -/
theorem c5_en_passant_amended (bd : Board) (pos : Pos) (piece : Piece)
    (lastMove : Option (Pos × Pos)) (offset : Int)
    (hwf : boardWF bd)
    (hp : piece.type = PieceType.p)
    (hpiece : cell bd pos.1 pos.2 = some piece)
    (hoff : offset = -1 ∨ offset = 1)
    (hpr : 0 ≤ pos.1 ∧ pos.1 < 8) (hpc : 0 ≤ pos.2 ∧ pos.2 < 8)
    (hdr : 0 ≤ pos.1 + pawnDir piece.color ∧ pos.1 + pawnDir piece.color < 8)
    (hdc : 0 ≤ pos.2 + offset ∧ pos.2 + offset < 8)
    (hempty : cell bd (pos.1 + pawnDir piece.color) (pos.2 + offset) = none) :
    ((pos.1 + pawnDir piece.color, pos.2 + offset) ∈
        getRawPieceMoves pos piece bd lastMove ↔
      ∃ lm, lastMove = some lm ∧ isPawnAt bd lm.2.1 lm.2.2 = true ∧
        (lm.1.1 - lm.2.1).natAbs = 2 ∧ lm.2.2 = pos.2 + offset ∧ lm.2.1 = pos.1) ∧
    (pos.1 + pawnDir piece.color ≠ 0 → pos.1 + pawnDir piece.color ≠ 7 →
      cell (makeMoveBoard bd pos (pos.1 + pawnDir piece.color, pos.2 + offset))
          pos.1 (pos.2 + offset) = none ∧
      cell (makeMoveBoard bd pos (pos.1 + pawnDir piece.color, pos.2 + offset))
          (pos.1 + pawnDir piece.color) (pos.2 + offset) =
        some { piece with hasMoved := some true }) := by
  have hdir : pawnDir piece.color = -1 ∨ pawnDir piece.color = 1 := by
    unfold pawnDir
    split
    · exact Or.inl rfl
    · exact Or.inr rfl
  constructor
  · rw [getRawPieceMoves_eq_p hp]
    unfold pawnMoves
    constructor
    · intro hx
      rcases List.mem_append.mp hx with hx | hx
      · have := pawnForward_col hx
        exfalso
        omega
      · obtain ⟨off2, hoff2, hmem⟩ := List.mem_flatMap.mp hx
        have heq := mem_pawnCapture_eq hmem
        have hoffeq : off2 = offset := by
          have h2 : pos.2 + off2 = pos.2 + offset := congrArg Prod.snd heq |>.symm
          omega
        subst hoffeq
        exact (pawnCapture_en_passant_iff hdr hdc hempty).mp hmem
    · intro hrhs
      refine List.mem_append.mpr (Or.inr ?_)
      refine List.mem_flatMap.mpr ⟨offset, ?_, ?_⟩
      · rcases hoff with rfl | rfl
        · exact List.mem_cons_self _ _
        · exact List.mem_cons_of_mem _ (List.mem_singleton.mpr rfl)
      · exact (pawnCapture_en_passant_iff hdr hdc hempty).mpr hrhs
  · intro hno0 hno7
    have hoffne : offset ≠ 0 := by rcases hoff with rfl | rfl <;> omega
    have hmk := @makeMove_of_piece bd pos (pos.1 + pawnDir piece.color, pos.2 + offset)
      piece hpiece
    rw [if_neg (by
      rintro ⟨-, h07⟩
      rcases h07 with h07 | h07
      · exact hno0 h07
      · exact hno7 h07)] at hmk
    have hep : makeMoveEnPassant bd piece pos (pos.1 + pawnDir piece.color, pos.2 + offset)
        (cell bd (pos.1 + pawnDir piece.color) (pos.2 + offset)) =
        setCell bd pos.1 (pos.2 + offset) none := by
      unfold makeMoveEnPassant
      rw [if_pos ⟨hp, by show (pos.2 - (pos.2 + offset)).natAbs = 1; omega, hempty⟩]
      have : (pos.1 + pawnDir piece.color) - pawnDir piece.color = pos.1 := by omega
      rw [this]
    have hcastle : ∀ b0 : Board, makeMoveCastle b0 piece pos
        (pos.1 + pawnDir piece.color, pos.2 + offset) = b0 := by
      intro b0
      unfold makeMoveCastle
      rw [if_neg (by
        rintro ⟨hk, -⟩
        rw [hp] at hk
        cases hk)]
    rw [hep, hcastle] at hmk
    have hboard : makeMoveBoard bd pos (pos.1 + pawnDir piece.color, pos.2 + offset) =
        setCell (setCell (setCell bd pos.1 (pos.2 + offset) none)
            (pos.1 + pawnDir piece.color) (pos.2 + offset)
            (some { piece with hasMoved := some true }))
          pos.1 pos.2 none := by
      unfold makeMoveBoard
      rw [hmk]
    rw [hboard]
    have hwf1 : boardWF (setCell bd pos.1 (pos.2 + offset) none) :=
      setCell_boardWF hwf _ _ _
    have hwf2 : boardWF (setCell (setCell bd pos.1 (pos.2 + offset) none)
        (pos.1 + pawnDir piece.color) (pos.2 + offset)
        (some { piece with hasMoved := some true })) :=
      setCell_boardWF hwf1 _ _ _
    constructor
    · rw [cell_setCell_ne _ (Or.inr (by omega))]
      rw [cell_setCell_ne _ (Or.inl (by omega))]
      exact cell_setCell_self hwf hpr hdc none
    · rw [cell_setCell_ne _ (Or.inl (by omega))]
      exact cell_setCell_self hwf1 hdr hdc _

/-! ## Concrete counterexamples and code-bug demonstrations -/

/-- C5 counterexample: on `epSameColorBoard` the mover is the WHITE pawn at
(3,4) and the last move ends on (3,3), which holds another WHITE pawn — not
an opposing one — yet the raw moves include the empty diagonal en-passant
destination (2,3).  The generation condition of the source checks only that a
pawn sits on the last move's target square, never its color. -/
theorem c5_counterexample_same_color :
    (((2 : Int), (3 : Int)) : Pos) ∈
      getRawPieceMoves (3, 4) wP epSameColorBoard (some ((1, 3), (3, 3))) ∧
    cell epSameColorBoard 3 3 = some wP ∧
    cell epSameColorBoard 2 3 = none ∧
    wP.color = Color.w :=
  ⟨by decide, by decide, by decide, rfl⟩

/-- C2: undo does not round-trip.  The rook on (7,0) of `undoDemoBoard` has
`hasMoved = true`; after moving it to (5,0) and undoing via the produced
record, `handleUndo` restores it with `hasMoved := false`, so the resulting
board differs from the original. -/
theorem c2_undo_not_roundtrip :
    makeMove undoDemoBoard (7, 0) (5, 0) =
      MoveResult.moved (makeMoveBoard undoDemoBoard (7, 0) (5, 0)) undoDemoRecord ∧
    handleUndo (makeMoveBoard undoDemoBoard (7, 0) (5, 0)) undoDemoRecord ≠
      undoDemoBoard ∧
    cell (handleUndo (makeMoveBoard undoDemoBoard (7, 0) (5, 0)) undoDemoRecord) 7 0 =
      some { type := PieceType.r, color := Color.w, hasMoved := some false } ∧
    cell undoDemoBoard 7 0 =
      some { type := PieceType.r, color := Color.w, hasMoved := some true } :=
  ⟨by decide, by decide, by decide, by decide⟩

/-- C4: in the reference-level model, kingside castling mutates the caller's
board.  `makeMove` copies only the row arrays, so the rook object is shared;
the write `newBoard[fromRow][5]!.hasMoved = true` changes the heap object the
caller's board still references at (7,7): under the post-move heap the
caller's own board now shows the rook with `hasMoved = true`. -/
theorem c4_castling_mutates_caller_board :
    cell (derefBoard castleHeap castleHBoard) 7 7 = some wR ∧
    cell (derefBoard (makeMoveH castleHeap castleHBoard (7, 4) (7, 6)).1 castleHBoard)
        7 7 = some { type := PieceType.r, color := Color.w, hasMoved := some true } ∧
    derefBoard (makeMoveH castleHeap castleHBoard (7, 4) (7, 6)).1 castleHBoard ≠
      derefBoard castleHeap castleHBoard :=
  ⟨by decide, by decide, by decide⟩

/-! ## Witnesses -/

/-- Witness for C1 on the two-kings board: the white king's legal move to
(6,4) leaves its square unattacked on the simulated board. -/
theorem c1_witness :
    cell kingsOnlyBoard 7 4 = some wK ∧
    getLegalMoves (7, 4) wK kingsOnlyBoard none =
      some [(6, 3), (6, 4), (6, 5), (7, 3), (7, 5)] ∧
    (((6, 4) : Pos)) ∈ [((6 : Int), (3 : Int)), (6, 4), (6, 5), (7, 3), (7, 5)] ∧
    (if wK.type = PieceType.k then some ((6, 4) : Pos)
      else findKing (simulateMove kingsOnlyBoard (7, 4) (6, 4) wK) wK.color) =
        some (6, 4) ∧
    isPositionUnderAttack (6, 4) (oppColor wK.color)
      (simulateMove kingsOnlyBoard (7, 4) (6, 4) wK) = false :=
  ⟨by decide, by decide, by decide, by decide,
    c1_legal_move_no_self_check kingsOnlyBoard (7, 4) wK none
      [(6, 3), (6, 4), (6, 5), (7, 3), (7, 5)] (6, 4) (6, 4)
      (by decide) (by decide) (by decide) (by decide)⟩

/-- Witness for C5 (amended) on the genuine en-passant position: (2,3) is
generated, and applying the move removes the black pawn from (3,3) while the
white pawn lands on (2,3). -/
theorem c5_witness :
    boardWF epRealBoard ∧ wP.type = PieceType.p ∧ cell epRealBoard 3 4 = some wP ∧
    (((-1 : Int)) = -1 ∨ ((-1 : Int)) = 1) ∧
    cell epRealBoard 2 3 = none ∧
    ((((2 : Int), (3 : Int)) : Pos) ∈
        getRawPieceMoves (3, 4) wP epRealBoard (some ((1, 3), (3, 3))) ↔
      ∃ lm, (some ((((1 : Int), (3 : Int)), ((3 : Int), (3 : Int))) : Pos × Pos)) =
          some lm ∧
        isPawnAt epRealBoard lm.2.1 lm.2.2 = true ∧ (lm.1.1 - lm.2.1).natAbs = 2 ∧
        lm.2.2 = 3 ∧ lm.2.1 = 3) ∧
    cell (makeMoveBoard epRealBoard (3, 4) (2, 3)) 3 3 = none ∧
    cell (makeMoveBoard epRealBoard (3, 4) (2, 3)) 2 3 =
      some { wP with hasMoved := some true } := by
  have h := c5_en_passant_amended epRealBoard (3, 4) wP (some ((1, 3), (3, 3))) (-1)
    (by decide) rfl (by decide) (Or.inl rfl) (by decide) (by decide) (by decide)
    (by decide) (by decide)
  have hb := h.2 (by decide) (by decide)
  exact ⟨by decide, rfl, by decide, Or.inl rfl, by decide, h.1, hb.1, hb.2⟩

/-- Witness for C6 on the castling position: (7,6) is legal and all the
castling side-conditions hold. -/
theorem c6_witness :
    cell castleBoard 7 4 = some wK ∧ wK.type = PieceType.k ∧
    findKing castleBoard wK.color = some (7, 4) ∧
    getLegalMoves (7, 4) wK castleBoard none =
      some [(6, 3), (6, 4), (6, 5), (7, 3), (7, 5), (7, 6)] ∧
    (((7, 6) : Pos)) ∈ [((6 : Int), (3 : Int)), (6, 4), (6, 5), (7, 3), (7, 5), (7, 6)] ∧
    (((6 : Int) - 4).natAbs = 2) ∧
    (truthy wK.hasMoved = false ∧
      ((((7, 6) : Pos) = (7, 6) ∧ ksCastleCond castleBoard wK 7 = true) ∨
        (((7, 6) : Pos) = (7, 2) ∧ qsCastleCond castleBoard wK 7 = true)) ∧
      isInCheck castleBoard wK.color = some false ∧
      isPositionUnderAttack (7, 5) (oppColor wK.color) castleBoard = false ∧
      isPositionUnderAttack (7, 6) (oppColor wK.color)
        (simulateMove castleBoard (7, 4) (7, 6) wK) = false) :=
  ⟨by decide, rfl, by decide, by decide, by decide, by decide,
    c6_castling_conditions castleBoard (7, 4) wK none
      [(6, 3), (6, 4), (6, 5), (7, 3), (7, 5), (7, 6)] (7, 6)
      (by decide) rfl (by decide) (by decide) (by decide) (by decide)⟩

/-- Witness for C7 on the promotion position: the move (1,3) → (0,3) is
pending, the board is untouched, and resolving to a queen fills (0,3) and
clears (1,3). -/
theorem c7_witness :
    boardWF promoBoard ∧ cell promoBoard 1 3 = some wP ∧ wP.type = PieceType.p ∧
    (((0 : Int)) = 0 ∨ ((0 : Int)) = 7) ∧
    (makeMove promoBoard (1, 3) (0, 3) = MoveResult.pending (1, 3) (0, 3) wP.color ∧
      makeMoveBoard promoBoard (1, 3) (0, 3) = promoBoard ∧
      ∀ kind,
        cell (handlePromotion promoBoard
            { fromPos := (1, 3), toPos := (0, 3), color := wP.color } kind) 0 3 =
          some { type := kind, color := wP.color, hasMoved := none } ∧
        cell (handlePromotion promoBoard
            { fromPos := (1, 3), toPos := (0, 3), color := wP.color } kind) 1 3 = none) :=
  ⟨by decide, by decide, rfl, Or.inl rfl,
    c7_promotion_pending promoBoard (1, 3) (0, 3) wP (by decide) (by decide) rfl
      (Or.inl rfl) (by decide) (by decide) (by decide) (by decide) (by decide)⟩

/-- Witness for C8 on the two-kings board: the legal destination (6,3) is
also a raw destination. -/
theorem c8_witness :
    getLegalMoves (7, 4) wK kingsOnlyBoard none =
      some [(6, 3), (6, 4), (6, 5), (7, 3), (7, 5)] ∧
    (((6, 3) : Pos)) ∈ [((6 : Int), (3 : Int)), (6, 4), (6, 5), (7, 3), (7, 5)] ∧
    (((6, 3) : Pos)) ∈ getRawPieceMoves (7, 4) wK kingsOnlyBoard none :=
  ⟨by decide, by decide,
    c8_legalMoves_subset_rawMoves (7, 4) wK kingsOnlyBoard none
      [(6, 3), (6, 4), (6, 5), (7, 3), (7, 5)] (6, 3) (by decide) (by decide)⟩

/-- Witness for C9 on the back-rank-check board. -/
theorem c9_witness :
    boardWF checkBoard ∧
    ((isInCheck checkBoard Color.w = none ↔
        ∀ r c piece, cell checkBoard r c = some piece →
          ¬(piece.type = PieceType.k ∧ piece.color = Color.w)) ∧
      ∀ kingPos, findKing checkBoard Color.w = some kingPos →
        (isInCheck checkBoard Color.w = some true ↔
          ∃ sq piece, sq ∈ allSquares ∧ cell checkBoard sq.1 sq.2 = some piece ∧
            piece.color = oppColor Color.w ∧
            kingPos ∈ getRawPieceMoves sq piece checkBoard none)) :=
  ⟨by decide, c9_isInCheck_spec checkBoard Color.w (by decide)⟩

/-- Witness for C10 on the two-kings board at the white king's square. -/
theorem c10_witness :
    boardWF kingsOnlyBoard ∧
    (0 ≤ (((7, 4) : Pos)).1 ∧ (((7, 4) : Pos)).1 < 8) ∧
    (0 ≤ (((7, 4) : Pos)).2 ∧ (((7, 4) : Pos)).2 < 8) ∧
    ∀ dest ∈ getRawPieceMoves (7, 4) wK kingsOnlyBoard none,
      (0 ≤ dest.1 ∧ dest.1 < 8 ∧ 0 ≤ dest.2 ∧ dest.2 < 8) ∧
        ∀ q, cell kingsOnlyBoard dest.1 dest.2 = some q → q.color ≠ wK.color :=
  ⟨by decide, by decide, by decide,
    c10_raw_moves_safe kingsOnlyBoard (7, 4) wK none (by decide) (by decide) (by decide)⟩

end Chess
